import Mathlib

/-!
Verification of the shqueue shared-memory ring queue (Go sources
`queue.go` and `segment.go`).

The queue state that lives in the shared segment header, together with the
per-slot payloads, is embedded as the structure `QState`.  All header fields
are 32-bit unsigned integers in the source, so every field is a `Nat` that
the operations reduce modulo `U32 = 2 ^ 32` exactly where the Go `uint32`
arithmetic wraps.  Payloads are byte lists.  Runtime faults of the Go code
(division by zero in `%`, the `panic` inside `getMsgData` / `setMsgData` on
a wrong payload length) are modelled by `Except QErr`.  Each operation also
returns the ordered list of lock / copy events it performs, in the order the
corresponding calls appear in the Go source, so that claims about the
relative order of unlocking and payload copying can be settled.

The byte-level layout of the segment header (`segment.go`) is embedded
separately as functions over a byte store `Mem`, with both byte orders the
`detectByteOrder` probe can select.
-/

namespace Shqueue

/-- Modulus of the 32-bit unsigned header fields. -/
def U32 : Nat := 4294967296

/-- Layout constants from `queue.go` and `segment.go`. -/
def magicSize : Nat := 8

def paramsSize : Nat := 8

def headerSize : Nat := 16

def msgLockSize : Nat := 8

def startMaxLen : Nat := 8

def startMsgSize : Nat := 12

def startHeaderLock : Nat := 16

def startStartIdx : Nat := 24

def startQueueLen : Nat := 28

def startQueue : Nat := 32

/-- Queue state: the mutable header fields (`start_idx`, `queue_len`), the
immutable parameters (`max_len`, `msg_size` in bytes), and the payload bytes
of each slot, indexed by slot number. -/
structure QState where
  startIdx : Nat
  queueLen : Nat
  maxLen : Nat
  msgSize : Nat
  slots : Nat → List Nat

/-- Runtime faults of the Go operations: modulo by zero, and the panic in
`getMsgData` / `setMsgData` when the payload length differs from
`msg_size`. -/
inductive QErr where
  | divZero : QErr
  | badLen : QErr
deriving DecidableEq, Repr

/-- Lock and copy events, emitted in source order by each operation. -/
inductive Ev where
  | lockHeader : Ev
  | unlockHeader : Ev
  | lockMsg (i : Nat) : Ev
  | unlockMsg (i : Nat) : Ev
  | copyIn (i : Nat) : Ev
  | copyOut (i : Nat) : Ev
deriving DecidableEq, Repr

/-- Result of a blocking operation: success, observed cancellation, or
spinning forever because the queue never changes (single-thread view). -/
inductive BRes where
  | success : BRes
  | cancelled : BRes
  | blocked : BRes
deriving DecidableEq, Repr

/-- Event trace of a successful enqueue, in the order of the calls in
`EnqueueShift` / `EnqueueTry` / `EnqueueBlock`: lock header, lock slot,
copy payload in, unlock header, unlock slot. -/
def enqTrace (j : Nat) : List Ev :=
  [Ev.lockHeader, Ev.lockMsg j, Ev.copyIn j, Ev.unlockHeader, Ev.unlockMsg j]

/-- Event trace of a successful dequeue, in the order of the calls in
`DequeueTry` / `DequeueBlock`: lock header, lock slot, unlock header,
copy payload out, unlock slot. -/
def deqTrace (i : Nat) : List Ev :=
  [Ev.lockHeader, Ev.lockMsg i, Ev.unlockHeader, Ev.copyOut i, Ev.unlockMsg i]

/-- Model of `EnqueueShift` (queue.go lines 149-171).  Reads `cur_len`, `max_len`,
`start_idx`, computes `msg_idx = (start_idx + cur_len) % max_len` in uint32
arithmetic (a fault when `max_len = 0`), then either increments `queue_len`
(not full) or advances `start_idx` (full), and writes the payload into slot
`msg_idx` (a fault when the payload length is not `msg_size`). -/
def enqueueShift (msg : List Nat) (s : QState) : Except QErr (QState × List Ev) :=
  if s.maxLen = 0 then .error .divZero
  else if msg.length = s.msgSize then
    if s.queueLen < s.maxLen then
      .ok (⟨s.startIdx, (s.queueLen + 1) % U32, s.maxLen, s.msgSize,
            Function.update s.slots ((s.startIdx + s.queueLen) % U32 % s.maxLen) msg⟩,
           enqTrace ((s.startIdx + s.queueLen) % U32 % s.maxLen))
    else
      .ok (⟨(s.startIdx + 1) % U32 % s.maxLen, s.queueLen, s.maxLen, s.msgSize,
            Function.update s.slots ((s.startIdx + s.queueLen) % U32 % s.maxLen) msg⟩,
           enqTrace ((s.startIdx + s.queueLen) % U32 % s.maxLen))
  else .error .badLen

/-- Model of `EnqueueTry` (queue.go lines 216-238).  Returns `false` when
`cur_len >= max_len`, leaving the state unchanged; otherwise appends at
`(start_idx + cur_len) % max_len` (uint32 arithmetic; `max_len > 0` holds
there so no division by zero is possible). -/
def enqueueTry (msg : List Nat) (s : QState) : Except QErr (Bool × QState × List Ev) :=
  if s.maxLen ≤ s.queueLen then .ok (false, s, [Ev.lockHeader, Ev.unlockHeader])
  else if msg.length = s.msgSize then
    .ok (true, ⟨s.startIdx, (s.queueLen + 1) % U32, s.maxLen, s.msgSize,
          Function.update s.slots ((s.startIdx + s.queueLen) % U32 % s.maxLen) msg⟩,
         enqTrace ((s.startIdx + s.queueLen) % U32 % s.maxLen))
  else .error .badLen

/-- Model of `DequeueTry` (queue.go lines 281-302).  Returns `false` when
`cur_len = 0`, leaving the state unchanged; otherwise decrements
`queue_len`, advances `start_idx` to `(start_idx + 1) % max_len` (uint32
arithmetic; a fault when `max_len = 0`), and copies the payload of the old
start slot into the caller's buffer of length `tlen` (a fault when
`tlen` is not `msg_size`). -/
def dequeueTry (tlen : Nat) (s : QState) : Except QErr (Bool × List Nat × QState × List Ev) :=
  if s.queueLen = 0 then .ok (false, [], s, [Ev.lockHeader, Ev.unlockHeader])
  else if s.maxLen = 0 then .error .divZero
  else if tlen = s.msgSize then
    .ok (true, s.slots s.startIdx,
         ⟨(s.startIdx + 1) % U32 % s.maxLen, s.queueLen - 1, s.maxLen, s.msgSize, s.slots⟩,
         deqTrace s.startIdx)
  else .error .badLen

/-- Model of `EnqueueBlock` (queue.go lines 173-214).  Cancellation is polled at the
top of each iteration before anything else; if the signal is already
signalled the call returns with no effect and no lock events.  When there is
space the body appends exactly as `EnqueueTry`.  When the queue is full and
stays full the loop spins forever (`blocked` here), touching no state. -/
def enqueueBlock (cancelled : Bool) (msg : List Nat) (s : QState) :
    Except QErr (BRes × QState × List Ev) :=
  if cancelled then .ok (.cancelled, s, [])
  else if s.queueLen < s.maxLen then
    if msg.length = s.msgSize then
      .ok (.success, ⟨s.startIdx, (s.queueLen + 1) % U32, s.maxLen, s.msgSize,
            Function.update s.slots ((s.startIdx + s.queueLen) % U32 % s.maxLen) msg⟩,
           enqTrace ((s.startIdx + s.queueLen) % U32 % s.maxLen))
    else .error .badLen
  else .ok (.blocked, s, [])

/-- Model of `DequeueBlock` (queue.go lines 240-279).  Cancellation is polled first;
when the queue is nonempty the body removes the head exactly as
`DequeueTry`. -/
def dequeueBlock (cancelled : Bool) (tlen : Nat) (s : QState) :
    Except QErr (BRes × List Nat × QState × List Ev) :=
  if cancelled then .ok (.cancelled, [], s, [])
  else if s.queueLen = 0 then .ok (.blocked, [], s, [])
  else if s.maxLen = 0 then .error .divZero
  else if tlen = s.msgSize then
    .ok (.success, s.slots s.startIdx,
         ⟨(s.startIdx + 1) % U32 % s.maxLen, s.queueLen - 1, s.maxLen, s.msgSize, s.slots⟩,
         deqTrace s.startIdx)
  else .error .badLen

/-- Model of `totalShmSize` (queue.go lines 117-119), computed in uint32 arithmetic
exactly as the Go expression
`magicSize + paramsSize + headerSize + ((msgSize + msgLockSize) * maxLen)`. -/
def totalShmSize (msgSize maxLen : Nat) : Nat :=
  (magicSize + paramsSize + headerSize + (msgSize + msgLockSize) % U32 * maxLen % U32) % U32

/-- The `msgSize *= 8` conversion at the top of `Create` (queue.go line 30),
in uint32 arithmetic. -/
def createMsgSize (msgSizeWords : Nat) : Nat :=
  msgSizeWords * 8 % U32

/-- Total segment size requested by `Create` (queue.go line 31). -/
def createTotalSize (msgSizeWords maxLen : Nat) : Nat :=
  totalShmSize (createMsgSize msgSizeWords) maxLen

/-- Header initialization performed by `Create` (queue.go lines 59-64) on the
attached segment `old` (freshly created or reused): it unconditionally writes
the magic, the requested `msg_size` and `max_len`, and zeroes `start_idx` and
`queue_len`; slot payload bytes are left as they were. -/
def createState (msgSizeWords maxLen : Nat) (old : QState) : QState :=
  ⟨0, 0, maxLen % U32, createMsgSize msgSizeWords, old.slots⟩

/-- A freshly created queue with capacity `M`, message size `sz` and
arbitrary initial slot contents `f`. -/
def initState (M sz : Nat) (f : Nat → List Nat) : QState :=
  ⟨0, 0, M, sz, f⟩

/-- One transition of the queue: any enqueue or dequeue operation of the
source that returns (instead of faulting), including both outcomes of the
try operations and all outcomes of the blocking operations. -/
inductive Step : QState → QState → Prop where
  | shift (msg : List Nat) (s s' : QState) (tr : List Ev) :
      enqueueShift msg s = .ok (s', tr) → Step s s'
  | etry (msg : List Nat) (b : Bool) (s s' : QState) (tr : List Ev) :
      enqueueTry msg s = .ok (b, s', tr) → Step s s'
  | dtry (tlen : Nat) (b : Bool) (out : List Nat) (s s' : QState) (tr : List Ev) :
      dequeueTry tlen s = .ok (b, out, s', tr) → Step s s'
  | eblock (c : Bool) (msg : List Nat) (r : BRes) (s s' : QState) (tr : List Ev) :
      enqueueBlock c msg s = .ok (r, s', tr) → Step s s'
  | dblock (c : Bool) (tlen : Nat) (r : BRes) (out : List Nat) (s s' : QState) (tr : List Ev) :
      dequeueBlock c tlen s = .ok (r, out, s', tr) → Step s s'

/-- States reachable from a freshly created queue by any sequence of
operations. -/
inductive Reachable (M sz : Nat) (f : Nat → List Nat) : QState → Prop where
  | init : Reachable M sz f (initState M sz f)
  | step {s s' : QState} : Reachable M sz f s → Step s s' → Reachable M sz f s'


/-- Iterate `EnqueueShift` over a list of payloads, left to right. -/
def shiftAll (msgs : List (List Nat)) (s : QState) : Except QErr QState :=
  match msgs with
  | [] => .ok s
  | m :: ms =>
    match enqueueShift m s with
    | .ok (s', _) => shiftAll ms s'
    | .error e => .error e

/-- The cyclic-discipline invariant: after the payloads `hist` have been
shifted into an initially empty queue of capacity `M`, the state holds the
last `min hist.length M` payloads in ring order starting at `start_idx`. -/
def RingGood (M sz : Nat) (hist : List (List Nat)) (s : QState) : Prop :=
  s.maxLen = M ∧ s.msgSize = sz ∧
  s.queueLen = min hist.length M ∧
  s.startIdx = (hist.length - M) % M ∧
  ∀ k, k < min hist.length M →
    s.slots ((s.startIdx + k) % M) = hist.getD (hist.length - min hist.length M + k) []

/-- An event a occurs strictly before an event b in a trace. -/
abbrev evBefore (a b : Ev) (tr : List Ev) : Prop :=
  ∃ i : Fin tr.length, ∃ j : Fin tr.length,
    (i : Nat) < (j : Nat) ∧ tr.get i = a ∧ tr.get j = b

/-- A byte store: the attached shared-memory bytes, indexed from the
segment base. -/
abbrev Mem := Nat → Nat

/-- The two byte orders `detectByteOrder` (segment.go lines 48-62) can
select. -/
inductive ByteOrder where
  | little : ByteOrder
  | big : ByteOrder
deriving DecidableEq, Repr

/-- Byte k of the little-endian representation of a 32-bit value:
byte(v >> (8 * k)). -/
def leByte0 (v : Nat) : Nat := v % 256

def leByte1 (v : Nat) : Nat := v / 256 % 256

def leByte2 (v : Nat) : Nat := v / 65536 % 256

def leByte3 (v : Nat) : Nat := v / 16777216 % 256

/-- Model of `binary.ByteOrder.PutUint32` on the 4 bytes at offset `off`
(little: b[0] = byte(v), ..., b[3] = byte(v >> 24); big: reversed). -/
def putU32 (bo : ByteOrder) (mem : Mem) (off v : Nat) : Mem :=
  match bo with
  | .little => fun i =>
      if i = off then leByte0 v
      else if i = off + 1 then leByte1 v
      else if i = off + 2 then leByte2 v
      else if i = off + 3 then leByte3 v
      else mem i
  | .big => fun i =>
      if i = off then leByte3 v
      else if i = off + 1 then leByte2 v
      else if i = off + 2 then leByte1 v
      else if i = off + 3 then leByte0 v
      else mem i

/-- Model of `binary.ByteOrder.Uint32` of the 4 bytes at offset `off`. -/
def getU32 (bo : ByteOrder) (mem : Mem) (off : Nat) : Nat :=
  match bo with
  | .little => mem off + 256 * mem (off + 1) + 65536 * mem (off + 2) + 16777216 * mem (off + 3)
  | .big => mem (off + 3) + 256 * mem (off + 2) + 65536 * mem (off + 1) + 16777216 * mem off

/-- Model of `segment.setMaxLen` (segment.go lines 83-85). -/
def setMaxLen (bo : ByteOrder) (mem : Mem) (v : Nat) : Mem := putU32 bo mem startMaxLen v

/-- Model of `segment.getMaxLen` (segment.go lines 79-81). -/
def getMaxLen (bo : ByteOrder) (mem : Mem) : Nat := getU32 bo mem startMaxLen

/-- Model of `segment.setMsgSize` (segment.go lines 91-93). -/
def setMsgSize (bo : ByteOrder) (mem : Mem) (v : Nat) : Mem := putU32 bo mem startMsgSize v

/-- Model of `segment.getMsgSize` (segment.go lines 87-89). -/
def getMsgSize (bo : ByteOrder) (mem : Mem) : Nat := getU32 bo mem startMsgSize

/-- Model of `segment.setStartIdx` (segment.go lines 115-117). -/
def setStartIdx (bo : ByteOrder) (mem : Mem) (v : Nat) : Mem := putU32 bo mem startStartIdx v

/-- Model of `segment.getStartIdx` (segment.go lines 111-113). -/
def getStartIdx (bo : ByteOrder) (mem : Mem) : Nat := getU32 bo mem startStartIdx

/-- Model of `segment.setQueueLen` (segment.go lines 123-125). -/
def setQueueLen (bo : ByteOrder) (mem : Mem) (v : Nat) : Mem := putU32 bo mem startQueueLen v

/-- Model of `segment.getQueueLen` (segment.go lines 119-121). -/
def getQueueLen (bo : ByteOrder) (mem : Mem) : Nat := getU32 bo mem startQueueLen

theorem enqueueShift_fields {msg : List Nat} {s s' : QState} {tr : List Ev}
    (h : enqueueShift msg s = .ok (s', tr)) :
    s'.maxLen = s.maxLen ∧ s'.msgSize = s.msgSize ∧ s.maxLen ≠ 0 ∧ msg.length = s.msgSize ∧
    ((s.queueLen < s.maxLen ∧ s'.queueLen = (s.queueLen + 1) % U32 ∧ s'.startIdx = s.startIdx) ∨
     (s.maxLen ≤ s.queueLen ∧ s'.queueLen = s.queueLen ∧
       s'.startIdx = (s.startIdx + 1) % U32 % s.maxLen)) := by
  unfold enqueueShift at h
  split at h
  · exact absurd h (by simp)
  · split at h
    · split at h
      · rw [Except.ok.injEq, Prod.mk.injEq] at h
        obtain ⟨h1, -⟩ := h
        subst h1
        refine ⟨rfl, rfl, by assumption, by assumption, Or.inl ⟨by assumption, rfl, rfl⟩⟩
      · rw [Except.ok.injEq, Prod.mk.injEq] at h
        obtain ⟨h1, -⟩ := h
        subst h1
        refine ⟨rfl, rfl, by assumption, by assumption, Or.inr ⟨by omega, rfl, rfl⟩⟩
    · exact absurd h (by simp)

theorem enqueueTry_fields {msg : List Nat} {b : Bool} {s s' : QState} {tr : List Ev}
    (h : enqueueTry msg s = .ok (b, s', tr)) :
    s'.maxLen = s.maxLen ∧ s'.msgSize = s.msgSize ∧
    ((b = false ∧ s' = s ∧ s.maxLen ≤ s.queueLen) ∨
     (b = true ∧ s.queueLen < s.maxLen ∧ s'.queueLen = (s.queueLen + 1) % U32 ∧
       s'.startIdx = s.startIdx)) := by
  unfold enqueueTry at h
  split at h
  · rw [Except.ok.injEq, Prod.mk.injEq, Prod.mk.injEq] at h
    obtain ⟨hb, h1, -⟩ := h
    subst h1
    exact ⟨rfl, rfl, Or.inl ⟨hb.symm, rfl, by assumption⟩⟩
  · split at h
    · rw [Except.ok.injEq, Prod.mk.injEq, Prod.mk.injEq] at h
      obtain ⟨hb, h1, -⟩ := h
      subst h1
      exact ⟨rfl, rfl, Or.inr ⟨hb.symm, by omega, rfl, rfl⟩⟩
    · exact absurd h (by simp)

theorem dequeueTry_fields {tlen : Nat} {b : Bool} {out : List Nat} {s s' : QState} {tr : List Ev}
    (h : dequeueTry tlen s = .ok (b, out, s', tr)) :
    s'.maxLen = s.maxLen ∧ s'.msgSize = s.msgSize ∧
    ((b = false ∧ s' = s ∧ s.queueLen = 0) ∨
     (b = true ∧ s.queueLen ≠ 0 ∧ s.maxLen ≠ 0 ∧ s'.queueLen = s.queueLen - 1 ∧
       s'.startIdx = (s.startIdx + 1) % U32 % s.maxLen)) := by
  unfold dequeueTry at h
  split at h
  · rw [Except.ok.injEq, Prod.mk.injEq, Prod.mk.injEq, Prod.mk.injEq] at h
    obtain ⟨hb, -, h1, -⟩ := h
    subst h1
    exact ⟨rfl, rfl, Or.inl ⟨hb.symm, rfl, by assumption⟩⟩
  · split at h
    · exact absurd h (by simp)
    · split at h
      · rw [Except.ok.injEq, Prod.mk.injEq, Prod.mk.injEq, Prod.mk.injEq] at h
        obtain ⟨hb, -, h1, -⟩ := h
        subst h1
        exact ⟨rfl, rfl, Or.inr ⟨hb.symm, by assumption, by assumption, rfl, rfl⟩⟩
      · exact absurd h (by simp)

theorem enqueueBlock_fields {c : Bool} {msg : List Nat} {r : BRes} {s s' : QState} {tr : List Ev}
    (h : enqueueBlock c msg s = .ok (r, s', tr)) :
    s'.maxLen = s.maxLen ∧ s'.msgSize = s.msgSize ∧
    (s' = s ∨ (s.queueLen < s.maxLen ∧ s'.queueLen = (s.queueLen + 1) % U32 ∧
      s'.startIdx = s.startIdx)) := by
  unfold enqueueBlock at h
  split at h
  · rw [Except.ok.injEq, Prod.mk.injEq, Prod.mk.injEq] at h
    obtain ⟨-, h1, -⟩ := h
    subst h1
    exact ⟨rfl, rfl, Or.inl rfl⟩
  · split at h
    · split at h
      · rw [Except.ok.injEq, Prod.mk.injEq, Prod.mk.injEq] at h
        obtain ⟨-, h1, -⟩ := h
        subst h1
        exact ⟨rfl, rfl, Or.inr ⟨by assumption, rfl, rfl⟩⟩
      · exact absurd h (by simp)
    · rw [Except.ok.injEq, Prod.mk.injEq, Prod.mk.injEq] at h
      obtain ⟨-, h1, -⟩ := h
      subst h1
      exact ⟨rfl, rfl, Or.inl rfl⟩

theorem dequeueBlock_fields {c : Bool} {tlen : Nat} {r : BRes} {out : List Nat}
    {s s' : QState} {tr : List Ev}
    (h : dequeueBlock c tlen s = .ok (r, out, s', tr)) :
    s'.maxLen = s.maxLen ∧ s'.msgSize = s.msgSize ∧
    (s' = s ∨ (s.queueLen ≠ 0 ∧ s.maxLen ≠ 0 ∧ s'.queueLen = s.queueLen - 1 ∧
      s'.startIdx = (s.startIdx + 1) % U32 % s.maxLen)) := by
  unfold dequeueBlock at h
  split at h
  · rw [Except.ok.injEq, Prod.mk.injEq, Prod.mk.injEq, Prod.mk.injEq] at h
    obtain ⟨-, -, h1, -⟩ := h
    subst h1
    exact ⟨rfl, rfl, Or.inl rfl⟩
  · split at h
    · rw [Except.ok.injEq, Prod.mk.injEq, Prod.mk.injEq, Prod.mk.injEq] at h
      obtain ⟨-, -, h1, -⟩ := h
      subst h1
      exact ⟨rfl, rfl, Or.inl rfl⟩
    · split at h
      · exact absurd h (by simp)
      · split at h
        · rw [Except.ok.injEq, Prod.mk.injEq, Prod.mk.injEq, Prod.mk.injEq] at h
          obtain ⟨-, -, h1, -⟩ := h
          subst h1
          exact ⟨rfl, rfl, Or.inr ⟨by assumption, by assumption, rfl, rfl⟩⟩
        · exact absurd h (by simp)

theorem step_inv {s s' : QState} (hstep : Step s s')
    (h1 : s.queueLen ≤ s.maxLen) (h2 : s.startIdx < s.maxLen) (h3 : s.maxLen < U32) :
    s'.maxLen = s.maxLen ∧ s'.queueLen ≤ s'.maxLen ∧ s'.startIdx < s'.maxLen := by
  have hU : U32 = 4294967296 := rfl
  cases hstep with
  | shift msg s s' tr h =>
    obtain ⟨hm, -, hz, -, hc⟩ := enqueueShift_fields h
    have h3' : s.maxLen < 4294967296 := h3
    rcases hc with ⟨ha, hb, hc⟩ | ⟨ha, hb, hc⟩
    · have hb' : s'.queueLen = (s.queueLen + 1) % 4294967296 := hb
      exact ⟨hm, by omega, by omega⟩
    · refine ⟨hm, by omega, ?_⟩
      rw [hm, hc]; exact Nat.mod_lt _ (by omega)
  | etry msg b s s' tr h =>
    obtain ⟨hm, -, hc⟩ := enqueueTry_fields h
    rcases hc with ⟨-, he, -⟩ | ⟨-, ha, hb, hc⟩
    · subst he; exact ⟨rfl, h1, h2⟩
    · have hb' : s'.queueLen = (s.queueLen + 1) % 4294967296 := hb
      have h3' : s.maxLen < 4294967296 := h3
      exact ⟨hm, by omega, by omega⟩
  | dtry tlen b out s s' tr h =>
    obtain ⟨hm, -, hc⟩ := dequeueTry_fields h
    rcases hc with ⟨-, he, -⟩ | ⟨-, ha, hz, hb, hc⟩
    · subst he; exact ⟨rfl, h1, h2⟩
    · refine ⟨hm, by omega, ?_⟩
      rw [hm, hc]; exact Nat.mod_lt _ (by omega)
  | eblock c msg r s s' tr h =>
    obtain ⟨hm, -, hc⟩ := enqueueBlock_fields h
    rcases hc with he | ⟨ha, hb, hc⟩
    · subst he; exact ⟨rfl, h1, h2⟩
    · have hb' : s'.queueLen = (s.queueLen + 1) % 4294967296 := hb
      have h3' : s.maxLen < 4294967296 := h3
      exact ⟨hm, by omega, by omega⟩
  | dblock c tlen r out s s' tr h =>
    obtain ⟨hm, -, hc⟩ := dequeueBlock_fields h
    rcases hc with he | ⟨ha, hz, hb, hc⟩
    · subst he; exact ⟨rfl, h1, h2⟩
    · refine ⟨hm, by omega, ?_⟩
      rw [hm, hc]; exact Nat.mod_lt _ (by omega)


/-- Claim C1: in every state reachable from a freshly created queue
(start_idx = 0, queue_len = 0, fixed max_len with 1 <= max_len < 2 ^ 32) by
any sequence of enqueue_shift, enqueue_try, dequeue_try and the bodies of
enqueue_block / dequeue_block, the invariant 0 <= queue_len <= max_len and
0 <= start_idx < max_len holds (and max_len is unchanged). -/
theorem reachable_state_invariant {M sz : Nat} {f : Nat → List Nat} {s : QState}
    (hM1 : 1 ≤ M) (hM2 : M < U32) (hr : Reachable M sz f s) :
    0 ≤ s.queueLen ∧ s.queueLen ≤ s.maxLen ∧ 0 ≤ s.startIdx ∧ s.startIdx < s.maxLen ∧
      s.maxLen = M := by
  have key : s.maxLen = M ∧ s.queueLen ≤ s.maxLen ∧ s.startIdx < s.maxLen := by
    induction hr with
    | init => exact ⟨rfl, Nat.zero_le _, hM1⟩
    | step hpre hstep ih =>
      obtain ⟨hm, hq, hs⟩ := ih
      obtain ⟨hm2, hq2, hs2⟩ := step_inv hstep hq hs (hm ▸ hM2)
      exact ⟨hm2.trans hm, hq2, hs2⟩
  exact ⟨Nat.zero_le _, key.2.1, Nat.zero_le _, key.2.2, key.1⟩

theorem reachable_state_invariant_witness :
    (1 ≤ 1 ∧ 1 < U32) ∧
      (0 ≤ (initState 1 1 fun _ => [0]).queueLen ∧
        (initState 1 1 fun _ => [0]).queueLen ≤ (initState 1 1 fun _ => [0]).maxLen ∧
        0 ≤ (initState 1 1 fun _ => [0]).startIdx ∧
        (initState 1 1 fun _ => [0]).startIdx < (initState 1 1 fun _ => [0]).maxLen ∧
        (initState 1 1 fun _ => [0]).maxLen = 1) :=
  ⟨⟨by decide, by decide⟩,
   reachable_state_invariant (by decide) (by decide) Reachable.init⟩


theorem mod_two_cases {a M : Nat} (_hM : 0 < M) (h : a < 2 * M) :
    a % M = if a < M then a else a - M := by
  split
  · exact Nat.mod_eq_of_lt (by assumption)
  · rw [Nat.mod_eq_sub_mod (by omega)]
    exact Nat.mod_eq_of_lt (by omega)

theorem ringGood_step {M sz : Nat} (hM : 1 ≤ M) (hM2 : M ≤ 2147483648)
    {hist : List (List Nat)} {m : List Nat} (hm : m.length = sz) {s : QState}
    (hg : RingGood M sz hist s) :
    ∃ s' tr, enqueueShift m s = .ok (s', tr) ∧ RingGood M sz (hist ++ [m]) s' := by
  obtain ⟨hmax, hsz, hlen, hstart, hslots⟩ := hg
  have hU : U32 = 4294967296 := rfl
  have hstartlt : s.startIdx < M := by rw [hstart]; exact Nat.mod_lt _ (by omega)
  by_cases hn : hist.length < M
  case pos =>
    have hlen2 : s.queueLen = hist.length := by rw [hlen]; omega
    have hstart0 : s.startIdx = 0 := by
      rw [hstart]
      have h0 : hist.length - M = 0 := by omega
      rw [h0, Nat.zero_mod]
    have hidx : (s.startIdx + s.queueLen) % U32 % s.maxLen = hist.length := by
      rw [hstart0, hlen2, hmax, Nat.zero_add, hU,
        Nat.mod_eq_of_lt (show hist.length < 4294967296 by omega)]
      exact Nat.mod_eq_of_lt hn
    refine ⟨⟨s.startIdx, (s.queueLen + 1) % U32, s.maxLen, s.msgSize,
        Function.update s.slots ((s.startIdx + s.queueLen) % U32 % s.maxLen) m⟩,
      enqTrace ((s.startIdx + s.queueLen) % U32 % s.maxLen), ?_, ?_⟩
    · unfold enqueueShift
      rw [if_neg (show ¬s.maxLen = 0 by omega), if_pos (show m.length = s.msgSize by rw [hsz]; exact hm),
        if_pos (show s.queueLen < s.maxLen by omega)]
    · refine ⟨hmax, hsz, ?_, ?_, ?_⟩
      · show (s.queueLen + 1) % U32 = min (hist ++ [m]).length M
        rw [List.length_append, List.length_singleton, hlen2, hU,
          Nat.mod_eq_of_lt (show hist.length + 1 < 4294967296 by omega)]
        omega
      · show s.startIdx = ((hist ++ [m]).length - M) % M
        rw [List.length_append, List.length_singleton, hstart0]
        have h0 : hist.length + 1 - M = 0 := by omega
        rw [h0, Nat.zero_mod]
      · intro k hk
        rw [List.length_append, List.length_singleton] at hk ⊢
        have hminN : min (hist.length + 1) M = hist.length + 1 := by omega
        rw [hminN] at hk ⊢
        show Function.update s.slots ((s.startIdx + s.queueLen) % U32 % s.maxLen) m
            ((s.startIdx + k) % M) = (hist ++ [m]).getD (hist.length + 1 - (hist.length + 1) + k) []
        rw [hidx, hstart0, Nat.zero_add, Nat.mod_eq_of_lt (show k < M by omega),
          show hist.length + 1 - (hist.length + 1) + k = k by omega]
        by_cases hkE : k = hist.length
        case pos =>
          subst hkE
          rw [Function.update_same, List.getD_append_right _ _ _ _ (Nat.le_refl _)]
          simp
        case neg =>
          rw [Function.update_noteq hkE, List.getD_append _ _ _ _ (show k < hist.length by omega)]
          have hs2 := hslots k (show k < min hist.length M by omega)
          rwa [hstart0, Nat.zero_add, Nat.mod_eq_of_lt (show k < M by omega),
            show hist.length - min hist.length M + k = k by omega] at hs2
  case neg =>
    have hlen2 : s.queueLen = M := by rw [hlen]; omega
    have hidx : (s.startIdx + s.queueLen) % U32 % s.maxLen = s.startIdx := by
      rw [hlen2, hmax, hU,
        Nat.mod_eq_of_lt (show s.startIdx + M < 4294967296 by omega),
        Nat.add_mod_right]
      exact Nat.mod_eq_of_lt hstartlt
    refine ⟨⟨(s.startIdx + 1) % U32 % s.maxLen, s.queueLen, s.maxLen, s.msgSize,
        Function.update s.slots ((s.startIdx + s.queueLen) % U32 % s.maxLen) m⟩,
      enqTrace ((s.startIdx + s.queueLen) % U32 % s.maxLen), ?_, ?_⟩
    · unfold enqueueShift
      rw [if_neg (show ¬s.maxLen = 0 by omega), if_pos (show m.length = s.msgSize by rw [hsz]; exact hm),
        if_neg (show ¬s.queueLen < s.maxLen by omega)]
    · refine ⟨hmax, hsz, ?_, ?_, ?_⟩
      · show s.queueLen = min (hist ++ [m]).length M
        rw [List.length_append, List.length_singleton]
        omega
      · show (s.startIdx + 1) % U32 % s.maxLen = ((hist ++ [m]).length - M) % M
        rw [List.length_append, List.length_singleton, hmax, hU,
          Nat.mod_eq_of_lt (show s.startIdx + 1 < 4294967296 by omega), hstart,
          Nat.mod_add_mod, show hist.length - M + 1 = hist.length + 1 - M by omega]
      · intro k hk
        rw [List.length_append, List.length_singleton] at hk ⊢
        have hminN : min (hist.length + 1) M = M := by omega
        have hminO : min hist.length M = M := by omega
        rw [hminN] at hk ⊢
        show Function.update s.slots ((s.startIdx + s.queueLen) % U32 % s.maxLen) m
            (((s.startIdx + 1) % U32 % s.maxLen + k) % M) = (hist ++ [m]).getD (hist.length + 1 - M + k) []
        rw [hidx, hmax, hU, Nat.mod_eq_of_lt (show s.startIdx + 1 < 4294967296 by omega),
          Nat.mod_add_mod]
        by_cases hkE : k = M - 1
        case pos =>
          subst hkE
          rw [show s.startIdx + 1 + (M - 1) = s.startIdx + M by omega, Nat.add_mod_right,
            Nat.mod_eq_of_lt hstartlt, Function.update_same,
            show hist.length + 1 - M + (M - 1) = hist.length by omega,
            List.getD_append_right _ _ _ _ (Nat.le_refl _)]
          simp
        case neg =>
          have hmod : (s.startIdx + 1 + k) % M = if s.startIdx + 1 + k < M then s.startIdx + 1 + k
              else s.startIdx + 1 + k - M := mod_two_cases (by omega) (by omega)
          have hne : (s.startIdx + 1 + k) % M ≠ s.startIdx := by
            rw [hmod]; split <;> omega
          rw [Function.update_noteq hne,
            show s.startIdx + 1 + k = s.startIdx + (k + 1) by omega]
          have hs2 := hslots (k + 1) (show k + 1 < min hist.length M by omega)
          rw [hminO] at hs2
          rw [hs2, show hist.length + 1 - M + k = hist.length - M + (k + 1) by omega,
            List.getD_append _ _ _ _ (show hist.length - M + (k + 1) < hist.length by omega)]

theorem shiftAll_good {M sz : Nat} (hM : 1 ≤ M) (hM2 : M ≤ 2147483648) :
    ∀ (msgs hist : List (List Nat)) (s : QState),
      RingGood M sz hist s → (∀ x ∈ msgs, x.length = sz) →
      ∃ s', shiftAll msgs s = .ok s' ∧ RingGood M sz (hist ++ msgs) s' := by
  intro msgs
  induction msgs with
  | nil =>
    intro hist s hg _
    exact ⟨s, rfl, by simpa using hg⟩
  | cons m ms ih =>
    intro hist s hg hlens
    obtain ⟨s1, tr, hstep, hg1⟩ := ringGood_step hM hM2 (hlens m (by simp)) hg
    obtain ⟨s2, hrun, hg2⟩ := ih (hist ++ [m]) s1 hg1 (fun x hx => hlens x (by simp [hx]))
    refine ⟨s2, ?_, ?_⟩
    · unfold shiftAll
      rw [hstep]
      exact hrun
    · rw [List.append_assoc] at hg2
      exact hg2


/-- Claim C2 counterexample input: a full queue with max_len = 2 ^ 31 + 1,
start_idx = 2 ^ 31, queue_len = 2 ^ 31 + 1.  The uint32 sum
start_idx + queue_len wraps, so the payload is written into slot 1 and not
into slot (start_idx + queue_len) mod max_len = 2 ^ 31, which keeps its old
content. -/
theorem enqueueShift_wrap_cex :
    (2147483649 : Nat) ≤ 2147483649 ∧ (2147483648 : Nat) < 2147483649 ∧
    (enqueueShift [7] ⟨2147483648, 2147483649, 2147483649, 1, fun _ => [0]⟩).map
      (fun r => r.1.slots ((2147483648 + 2147483649) % 2147483649)) = .ok [0] ∧
    ([0] : List Nat) ≠ [7] := by
  refine ⟨by omega, by omega, rfl, by simp⟩

/-- Claim C2 (amended: with max_len at most 2 ^ 31, so that the uint32 sums
start_idx + queue_len and start_idx + 1 cannot wrap): enqueue_shift writes
its payload into slot (start_idx + queue_len) mod max_len; if
queue_len < max_len it increments queue_len leaving start_idx unchanged,
otherwise it advances start_idx to (start_idx + 1) mod max_len leaving
queue_len unchanged, and other slots are unchanged; after any sequence of N
enqueue_shift calls into an initially empty queue the last min(N, max_len)
payloads are present in ring order starting at start_idx; and three shifts
into the full queue with start_idx = 4, queue_len = max_len = 5 end with
start_idx = 2, queue_len = 5 and slots 4, 0, 1 holding the three payloads in
order, slots 2 and 3 unchanged. -/
theorem enqueueShift_cyclic_spec :
    (∀ (s : QState) (msg : List Nat),
        s.startIdx < s.maxLen → s.queueLen ≤ s.maxLen → s.maxLen ≤ 2147483648 →
        msg.length = s.msgSize →
        ∃ s' tr, enqueueShift msg s = .ok (s', tr) ∧
          s'.slots ((s.startIdx + s.queueLen) % s.maxLen) = msg ∧
          s'.maxLen = s.maxLen ∧ s'.msgSize = s.msgSize ∧
          (s.queueLen < s.maxLen → s'.queueLen = s.queueLen + 1 ∧ s'.startIdx = s.startIdx) ∧
          (s.queueLen = s.maxLen → s'.startIdx = (s.startIdx + 1) % s.maxLen ∧
            s'.queueLen = s.queueLen) ∧
          (∀ i, i ≠ (s.startIdx + s.queueLen) % s.maxLen → s'.slots i = s.slots i)) ∧
    (∀ (M sz : Nat) (f : Nat → List Nat) (msgs : List (List Nat)),
        1 ≤ M → M ≤ 2147483648 → (∀ x ∈ msgs, x.length = sz) →
        ∃ s', shiftAll msgs (initState M sz f) = .ok s' ∧
          s'.queueLen = min msgs.length M ∧ s'.startIdx = (msgs.length - M) % M ∧
          ∀ k, k < min msgs.length M →
            s'.slots ((s'.startIdx + k) % M) =
              msgs.getD (msgs.length - min msgs.length M + k) []) ∧
    (shiftAll [[170], [187], [204]] ⟨4, 5, 5, 1, fun i => [i]⟩).map
      (fun s' => (s'.startIdx, s'.queueLen, s'.slots 4, s'.slots 0, s'.slots 1,
        s'.slots 2, s'.slots 3)) =
      .ok (2, 5, [170], [187], [204], [2], [3]) := by
  refine ⟨?_, ?_, rfl⟩
  · intro s msg hs hq hM2 hlen
    have hU : U32 = 4294967296 := rfl
    have hidx : (s.startIdx + s.queueLen) % U32 % s.maxLen =
        (s.startIdx + s.queueLen) % s.maxLen := by
      rw [hU, Nat.mod_eq_of_lt (show s.startIdx + s.queueLen < 4294967296 by omega)]
    by_cases hfull : s.queueLen < s.maxLen
    · refine ⟨⟨s.startIdx, (s.queueLen + 1) % U32, s.maxLen, s.msgSize,
          Function.update s.slots ((s.startIdx + s.queueLen) % U32 % s.maxLen) msg⟩,
        enqTrace ((s.startIdx + s.queueLen) % U32 % s.maxLen), ?_, ?_, rfl, rfl, ?_, ?_, ?_⟩
      · unfold enqueueShift
        rw [if_neg (show ¬s.maxLen = 0 by omega), if_pos hlen, if_pos hfull]
      · show Function.update s.slots ((s.startIdx + s.queueLen) % U32 % s.maxLen) msg
            ((s.startIdx + s.queueLen) % s.maxLen) = msg
        rw [hidx, Function.update_same]
      · intro _
        refine ⟨?_, rfl⟩
        show (s.queueLen + 1) % U32 = s.queueLen + 1
        rw [hU]
        exact Nat.mod_eq_of_lt (by omega)
      · intro hc
        omega
      · intro i hi
        show Function.update s.slots ((s.startIdx + s.queueLen) % U32 % s.maxLen) msg i = s.slots i
        rw [hidx]
        exact Function.update_noteq hi _ _
    · refine ⟨⟨(s.startIdx + 1) % U32 % s.maxLen, s.queueLen, s.maxLen, s.msgSize,
          Function.update s.slots ((s.startIdx + s.queueLen) % U32 % s.maxLen) msg⟩,
        enqTrace ((s.startIdx + s.queueLen) % U32 % s.maxLen), ?_, ?_, rfl, rfl, ?_, ?_, ?_⟩
      · unfold enqueueShift
        rw [if_neg (show ¬s.maxLen = 0 by omega), if_pos hlen, if_neg hfull]
      · show Function.update s.slots ((s.startIdx + s.queueLen) % U32 % s.maxLen) msg
            ((s.startIdx + s.queueLen) % s.maxLen) = msg
        rw [hidx, Function.update_same]
      · intro hc
        omega
      · intro _
        refine ⟨?_, rfl⟩
        show (s.startIdx + 1) % U32 % s.maxLen = (s.startIdx + 1) % s.maxLen
        rw [hU, Nat.mod_eq_of_lt (show s.startIdx + 1 < 4294967296 by omega)]
      · intro i hi
        show Function.update s.slots ((s.startIdx + s.queueLen) % U32 % s.maxLen) msg i = s.slots i
        rw [hidx]
        exact Function.update_noteq hi _ _
  · intro M sz f msgs hM hM2 hlens
    have hg0 : RingGood M sz [] (initState M sz f) := by
      refine ⟨rfl, rfl, by simp [initState], by simp [initState], ?_⟩
      intro k hk
      simp at hk
    obtain ⟨s', hrun, hg⟩ := shiftAll_good hM hM2 msgs [] (initState M sz f) hg0 hlens
    rw [List.nil_append] at hg
    obtain ⟨-, -, h1, h2, h3⟩ := hg
    exact ⟨s', hrun, h1, h2, h3⟩

/-- Claim C2 witness: a single shift into an empty two-slot queue lands in
slot 0 and sets queue_len to 1. -/
theorem enqueueShift_cyclic_spec_witness :
    ((0 : Nat) < 2 ∧ (0 : Nat) ≤ 2 ∧ (2 : Nat) ≤ 2147483648 ∧
      [(9 : Nat)].length = (⟨0, 0, 2, 1, fun _ => [0]⟩ : QState).msgSize) ∧
    ∃ s' tr, enqueueShift [9] ⟨0, 0, 2, 1, fun _ => [0]⟩ = .ok (s', tr) ∧
      s'.slots (((⟨0, 0, 2, 1, fun _ => [0]⟩ : QState).startIdx +
        (⟨0, 0, 2, 1, fun _ => [0]⟩ : QState).queueLen) % 2) = [9] ∧
      s'.maxLen = 2 ∧ s'.msgSize = 1 ∧
      ((0 : Nat) < 2 → s'.queueLen = 0 + 1 ∧ s'.startIdx = 0) ∧
      ((0 : Nat) = 2 → s'.startIdx = (0 + 1) % 2 ∧ s'.queueLen = 0) ∧
      (∀ i, i ≠ (0 + 0) % 2 → s'.slots i = (fun _ => [(0 : Nat)]) i) :=
  ⟨⟨by omega, by omega, by omega, rfl⟩,
    enqueueShift_cyclic_spec.1 ⟨0, 0, 2, 1, fun _ => [0]⟩ [9]
      (by decide) (by decide) (by decide) rfl⟩


/-- Claim C3 counterexample: on a nonempty queue (queue_len = 1 < max_len =
2, slot 0 holding BB = [187]), enqueue_try([170]) succeeds but the following
dequeue_try yields the oldest payload [187], not [170]: the queue is FIFO,
so the round trip returns the enqueued payload only from an empty queue. -/
theorem roundTrip_nonempty_cex :
    (⟨0, 1, 2, 1, fun _ => [187]⟩ : QState).queueLen <
      (⟨0, 1, 2, 1, fun _ => [187]⟩ : QState).maxLen ∧
    (match enqueueTry [170] ⟨0, 1, 2, 1, fun _ => [187]⟩ with
      | .ok (b, s1, _) => (dequeueTry 1 s1).map
          (fun r : Bool × List Nat × QState × List Ev => (b, r.1, r.2.1))
      | .error e => .error e) = .ok (true, true, [187]) ∧
    ([187] : List Nat) ≠ [170] := ⟨by decide, rfl, by decide⟩

/-- Claim C3 (amended: for every EMPTY queue state, queue_len = 0): for
every payload p of length msg_size, enqueue_try(p) returns true and a
subsequent dequeue_try into a buffer of length msg_size returns true and
yields p byte for byte, restoring the original queue_len. -/
theorem roundTrip_empty (s : QState) (p : List Nat)
    (h0 : s.queueLen = 0) (h1 : 1 ≤ s.maxLen) (h2 : s.startIdx < s.maxLen)
    (h3 : s.maxLen < U32) (hp : p.length = s.msgSize) :
    ∃ s1 s2 tr1 tr2,
      enqueueTry p s = .ok (true, s1, tr1) ∧
      dequeueTry p.length s1 = .ok (true, p, s2, tr2) ∧
      s2.queueLen = s.queueLen := by
  have hU : U32 = 4294967296 := rfl
  have hidx : (s.startIdx + s.queueLen) % U32 % s.maxLen = s.startIdx := by
    rw [h0, Nat.add_zero, hU, Nat.mod_eq_of_lt (show s.startIdx < 4294967296 by omega),
      Nat.mod_eq_of_lt h2]
  have hq1 : (s.queueLen + 1) % U32 = 1 := by rw [h0]; rfl
  have he : enqueueTry p s = .ok (true,
      ⟨s.startIdx, (s.queueLen + 1) % U32, s.maxLen, s.msgSize,
        Function.update s.slots ((s.startIdx + s.queueLen) % U32 % s.maxLen) p⟩,
      enqTrace ((s.startIdx + s.queueLen) % U32 % s.maxLen)) := by
    unfold enqueueTry
    rw [if_neg (show ¬s.maxLen ≤ s.queueLen by omega), if_pos hp]
  refine ⟨⟨s.startIdx, (s.queueLen + 1) % U32, s.maxLen, s.msgSize,
      Function.update s.slots ((s.startIdx + s.queueLen) % U32 % s.maxLen) p⟩,
    ⟨(s.startIdx + 1) % U32 % s.maxLen, (s.queueLen + 1) % U32 - 1, s.maxLen, s.msgSize,
      Function.update s.slots ((s.startIdx + s.queueLen) % U32 % s.maxLen) p⟩,
    enqTrace ((s.startIdx + s.queueLen) % U32 % s.maxLen),
    deqTrace s.startIdx, he, ?_, ?_⟩
  · unfold dequeueTry
    dsimp only
    rw [if_neg (show ¬((s.queueLen + 1) % U32 = 0) by rw [hq1]; omega),
      if_neg (show ¬s.maxLen = 0 by omega), if_pos hp, hidx, Function.update_same]
  · dsimp only
    rw [hq1, h0]

/-- Claim C3 witness: round trip of payload [9, 9] through the empty queue
with start_idx = 3, max_len = 5, msg_size = 2. -/
theorem roundTrip_empty_witness :
    ((⟨3, 0, 5, 2, fun _ => [1, 2]⟩ : QState).queueLen = 0 ∧
      1 ≤ (⟨3, 0, 5, 2, fun _ => [1, 2]⟩ : QState).maxLen ∧
      (⟨3, 0, 5, 2, fun _ => [1, 2]⟩ : QState).startIdx <
        (⟨3, 0, 5, 2, fun _ => [1, 2]⟩ : QState).maxLen ∧
      (⟨3, 0, 5, 2, fun _ => [1, 2]⟩ : QState).maxLen < U32 ∧
      [(9 : Nat), 9].length = (⟨3, 0, 5, 2, fun _ => [1, 2]⟩ : QState).msgSize) ∧
    ∃ s1 s2 tr1 tr2,
      enqueueTry [9, 9] ⟨3, 0, 5, 2, fun _ => [1, 2]⟩ = .ok (true, s1, tr1) ∧
      dequeueTry [(9 : Nat), 9].length s1 = .ok (true, [9, 9], s2, tr2) ∧
      s2.queueLen = (⟨3, 0, 5, 2, fun _ => [1, 2]⟩ : QState).queueLen :=
  ⟨⟨rfl, by decide, by decide, by decide, rfl⟩,
    roundTrip_empty ⟨3, 0, 5, 2, fun _ => [1, 2]⟩ [9, 9] rfl (by decide) (by decide)
      (by decide) rfl⟩

/-- Claim C4 counterexample: with max_len = 2 ^ 31 + 1, start_idx =
queue_len = 2 ^ 31, enqueue_try succeeds but the uint32 sum start_idx +
queue_len wraps to 0 and the payload goes to slot 0, not to slot
(start_idx + queue_len) mod max_len = 2 ^ 31 - 1, which is unchanged. -/
theorem enqueueTry_wrap_cex :
    (⟨2147483648, 2147483648, 2147483649, 1, fun _ => [0]⟩ : QState).queueLen <
      (⟨2147483648, 2147483648, 2147483649, 1, fun _ => [0]⟩ : QState).maxLen ∧
    (enqueueTry [7] ⟨2147483648, 2147483648, 2147483649, 1, fun _ => [0]⟩).map
      (fun r => (r.1, r.2.1.slots ((2147483648 + 2147483648) % 2147483649))) =
      .ok (true, [0]) ∧
    ([0] : List Nat) ≠ [7] := ⟨by decide, rfl, by decide⟩

/-- Claim C4 (amended: the slot index is computed in uint32 arithmetic,
i.e. the successful enqueue_try writes its payload into slot
((start_idx + old queue_len) mod 2 ^ 32) mod max_len): enqueue_try returns
false if and only if queue_len is at least max_len, and then the whole state
(header fields and every slot payload) is unchanged; when queue_len <
max_len it returns true, increments queue_len by 1 and writes the payload;
dequeue_try returns false if and only if queue_len = 0, and then the state
is unchanged. -/
theorem tryOps_spec :
    (∀ (s : QState) (msg : List Nat),
      ((∃ s' tr, enqueueTry msg s = .ok (false, s', tr)) ↔ s.maxLen ≤ s.queueLen) ∧
      (∀ s' tr, enqueueTry msg s = .ok (false, s', tr) → s' = s) ∧
      (s.queueLen < s.maxLen → s.maxLen < U32 → msg.length = s.msgSize →
        ∃ s' tr, enqueueTry msg s = .ok (true, s', tr) ∧
          s'.queueLen = s.queueLen + 1 ∧ s'.startIdx = s.startIdx ∧ s'.maxLen = s.maxLen ∧
          s'.slots ((s.startIdx + s.queueLen) % U32 % s.maxLen) = msg)) ∧
    (∀ (s : QState) (tlen : Nat),
      ((∃ out s' tr, dequeueTry tlen s = .ok (false, out, s', tr)) ↔ s.queueLen = 0) ∧
      (∀ out s' tr, dequeueTry tlen s = .ok (false, out, s', tr) → s' = s)) := by
  constructor
  · intro s msg
    refine ⟨⟨?_, ?_⟩, ?_, ?_⟩
    · rintro ⟨s', tr, h⟩
      obtain ⟨-, -, hc⟩ := enqueueTry_fields h
      rcases hc with ⟨-, -, hfull⟩ | ⟨hb, -⟩
      · exact hfull
      · exact absurd hb (by simp)
    · intro hfull
      refine ⟨s, [Ev.lockHeader, Ev.unlockHeader], ?_⟩
      unfold enqueueTry
      rw [if_pos hfull]
    · intro s' tr h
      obtain ⟨-, -, hc⟩ := enqueueTry_fields h
      rcases hc with ⟨-, he, -⟩ | ⟨hb, -⟩
      · exact he
      · exact absurd hb (by simp)
    · intro hroom hW hmsg
      have hU : U32 = 4294967296 := rfl
      refine ⟨⟨s.startIdx, (s.queueLen + 1) % U32, s.maxLen, s.msgSize,
          Function.update s.slots ((s.startIdx + s.queueLen) % U32 % s.maxLen) msg⟩,
        enqTrace ((s.startIdx + s.queueLen) % U32 % s.maxLen), ?_, ?_, rfl, rfl, ?_⟩
      · unfold enqueueTry
        rw [if_neg (show ¬s.maxLen ≤ s.queueLen by omega), if_pos hmsg]
      · show (s.queueLen + 1) % U32 = s.queueLen + 1
        rw [hU]
        exact Nat.mod_eq_of_lt (by omega)
      · exact Function.update_same _ _ _
  · intro s tlen
    refine ⟨⟨?_, ?_⟩, ?_⟩
    · rintro ⟨out, s', tr, h⟩
      obtain ⟨-, -, hc⟩ := dequeueTry_fields h
      rcases hc with ⟨-, -, h0⟩ | ⟨hb, -⟩
      · exact h0
      · exact absurd hb (by simp)
    · intro h0
      refine ⟨[], s, [Ev.lockHeader, Ev.unlockHeader], ?_⟩
      unfold dequeueTry
      rw [if_pos h0]
    · intro out s' tr h
      obtain ⟨-, -, hc⟩ := dequeueTry_fields h
      rcases hc with ⟨-, he, -⟩ | ⟨hb, -⟩
      · exact he
      · exact absurd hb (by simp)

/-- Claim C4 witness: on a full one-slot queue enqueue_try reports full, and
on an empty one dequeue_try reports empty. -/
theorem tryOps_spec_witness :
    ((⟨0, 1, 1, 1, fun _ => [0]⟩ : QState).maxLen ≤
        (⟨0, 1, 1, 1, fun _ => [0]⟩ : QState).queueLen ∧
      (∃ s' tr, enqueueTry [5] ⟨0, 1, 1, 1, fun _ => [0]⟩ = .ok (false, s', tr))) ∧
    ((⟨0, 0, 1, 1, fun _ => [0]⟩ : QState).queueLen = 0 ∧
      (∃ out s' tr, dequeueTry 1 ⟨0, 0, 1, 1, fun _ => [0]⟩ = .ok (false, out, s', tr))) :=
  ⟨⟨by decide, (tryOps_spec.1 ⟨0, 1, 1, 1, fun _ => [0]⟩ [5]).1.mpr (by decide)⟩,
   ⟨rfl, (tryOps_spec.2 ⟨0, 0, 1, 1, fun _ => [0]⟩ 1).1.mpr rfl⟩⟩

theorem evBefore_idx {a b : Ev} {tr : List Ev} (i j : Nat) (hi : i < tr.length)
    (hj : j < tr.length) (hij : i < j) (ha : tr.get ⟨i, hi⟩ = a) (hb : tr.get ⟨j, hj⟩ = b) :
    evBefore a b tr := ⟨⟨i, hi⟩, ⟨j, hj⟩, hij, ha, hb⟩

/-- Claim C5 counterexample: in a successful enqueue_shift the payload copy
event occurs strictly BEFORE the unlock-header event (queue.go lines
168-169), so the claim that unlock-header precedes the copy fails for the
enqueue operations. -/
theorem enqueue_copy_order_cex :
    (enqueueShift [5] ⟨0, 0, 1, 1, fun _ => [0]⟩).map (fun r => r.2) =
      .ok [Ev.lockHeader, Ev.lockMsg 0, Ev.copyIn 0, Ev.unlockHeader, Ev.unlockMsg 0] ∧
    ¬ evBefore Ev.unlockHeader (Ev.copyIn 0)
      [Ev.lockHeader, Ev.lockMsg 0, Ev.copyIn 0, Ev.unlockHeader, Ev.unlockMsg 0] :=
  ⟨rfl, by decide⟩

/-- Claim C5 (amended: in every dequeue operation the header lock is
released before the payload copy; in every enqueue operation the payload
copy occurs before the header lock is released, i.e. while the header lock
is still held). -/
theorem lock_copy_order :
    (∀ (msg : List Nat) (s s' : QState) (tr : List Ev),
      enqueueShift msg s = .ok (s', tr) →
      ∃ j, evBefore (Ev.copyIn j) Ev.unlockHeader tr) ∧
    (∀ (msg : List Nat) (s s' : QState) (tr : List Ev),
      enqueueTry msg s = .ok (true, s', tr) →
      ∃ j, evBefore (Ev.copyIn j) Ev.unlockHeader tr) ∧
    (∀ (c : Bool) (msg : List Nat) (s s' : QState) (tr : List Ev),
      enqueueBlock c msg s = .ok (BRes.success, s', tr) →
      ∃ j, evBefore (Ev.copyIn j) Ev.unlockHeader tr) ∧
    (∀ (tlen : Nat) (out : List Nat) (s s' : QState) (tr : List Ev),
      dequeueTry tlen s = .ok (true, out, s', tr) →
      ∃ i, evBefore Ev.unlockHeader (Ev.copyOut i) tr) ∧
    (∀ (c : Bool) (tlen : Nat) (out : List Nat) (s s' : QState) (tr : List Ev),
      dequeueBlock c tlen s = .ok (BRes.success, out, s', tr) →
      ∃ i, evBefore Ev.unlockHeader (Ev.copyOut i) tr) := by
  refine ⟨?_, ?_, ?_, ?_, ?_⟩
  · intro msg s s' tr h
    unfold enqueueShift at h
    split at h
    · exact absurd h (by simp)
    · split at h
      · split at h <;>
        · rw [Except.ok.injEq, Prod.mk.injEq] at h
          obtain ⟨-, htr⟩ := h
          subst htr
          exact ⟨_, evBefore_idx 2 3 (by simp [enqTrace]) (by simp [enqTrace])
            (by decide) rfl rfl⟩
      · exact absurd h (by simp)
  · intro msg s s' tr h
    unfold enqueueTry at h
    split at h
    · rw [Except.ok.injEq, Prod.mk.injEq] at h
      exact absurd h.1 (by simp)
    · split at h
      · rw [Except.ok.injEq, Prod.mk.injEq, Prod.mk.injEq] at h
        obtain ⟨-, -, htr⟩ := h
        subst htr
        exact ⟨_, evBefore_idx 2 3 (by simp [enqTrace]) (by simp [enqTrace])
          (by decide) rfl rfl⟩
      · exact absurd h (by simp)
  · intro c msg s s' tr h
    unfold enqueueBlock at h
    split at h
    · rw [Except.ok.injEq, Prod.mk.injEq] at h
      exact absurd h.1 (by simp)
    · split at h
      · split at h
        · rw [Except.ok.injEq, Prod.mk.injEq, Prod.mk.injEq] at h
          obtain ⟨-, -, htr⟩ := h
          subst htr
          exact ⟨_, evBefore_idx 2 3 (by simp [enqTrace]) (by simp [enqTrace])
            (by decide) rfl rfl⟩
        · exact absurd h (by simp)
      · rw [Except.ok.injEq, Prod.mk.injEq] at h
        exact absurd h.1 (by simp)
  · intro tlen out s s' tr h
    unfold dequeueTry at h
    split at h
    · rw [Except.ok.injEq, Prod.mk.injEq] at h
      exact absurd h.1 (by simp)
    · split at h
      · exact absurd h (by simp)
      · split at h
        · rw [Except.ok.injEq, Prod.mk.injEq, Prod.mk.injEq, Prod.mk.injEq] at h
          obtain ⟨-, -, -, htr⟩ := h
          subst htr
          exact ⟨_, evBefore_idx 2 3 (by simp [deqTrace]) (by simp [deqTrace])
            (by decide) rfl rfl⟩
        · exact absurd h (by simp)
  · intro c tlen out s s' tr h
    unfold dequeueBlock at h
    split at h
    · rw [Except.ok.injEq, Prod.mk.injEq] at h
      exact absurd h.1 (by simp)
    · split at h
      · rw [Except.ok.injEq, Prod.mk.injEq] at h
        exact absurd h.1 (by simp)
      · split at h
        · exact absurd h (by simp)
        · split at h
          · rw [Except.ok.injEq, Prod.mk.injEq, Prod.mk.injEq, Prod.mk.injEq] at h
            obtain ⟨-, -, -, htr⟩ := h
            subst htr
            exact ⟨_, evBefore_idx 2 3 (by simp [deqTrace]) (by simp [deqTrace])
            (by decide) rfl rfl⟩
          · exact absurd h (by simp)

/-- Claim C5 witness: the ordering facts at a concrete successful
enqueue_shift and a concrete successful dequeue_try. -/
theorem lock_copy_order_witness :
    (∃ j, evBefore (Ev.copyIn j) Ev.unlockHeader
      [Ev.lockHeader, Ev.lockMsg 0, Ev.copyIn 0, Ev.unlockHeader, Ev.unlockMsg 0]) ∧
    (∃ i, evBefore Ev.unlockHeader (Ev.copyOut i)
      [Ev.lockHeader, Ev.lockMsg 0, Ev.unlockHeader, Ev.copyOut 0, Ev.unlockMsg 0]) :=
  ⟨lock_copy_order.1 [5] ⟨0, 0, 1, 1, fun _ => [0]⟩
      ⟨0, 1, 1, 1, Function.update (fun _ => [0]) 0 [5]⟩
      [Ev.lockHeader, Ev.lockMsg 0, Ev.copyIn 0, Ev.unlockHeader, Ev.unlockMsg 0] rfl,
   lock_copy_order.2.2.2.1 1 [0] ⟨0, 1, 1, 1, fun _ => [0]⟩
      ⟨1 % U32 % 1, 0, 1, 1, fun _ => [0]⟩
      [Ev.lockHeader, Ev.lockMsg 0, Ev.unlockHeader, Ev.copyOut 0, Ev.unlockMsg 0] rfl⟩

/-- Claim C6: when the cancellation signal is already signalled at the call,
enqueue_block and dequeue_block return the cancelled status immediately,
with no lock or copy events and the state (header fields and every slot)
unchanged; in particular a blocking enqueue on a full queue with
cancellation signalled returns cancelled with the state unchanged. -/
theorem cancelled_is_noop :
    (∀ (msg : List Nat) (s : QState), enqueueBlock true msg s = .ok (.cancelled, s, [])) ∧
    (∀ (tlen : Nat) (s : QState), dequeueBlock true tlen s = .ok (.cancelled, [], s, [])) ∧
    enqueueBlock true [170] ⟨0, 2, 2, 1, fun _ => [0]⟩ =
      .ok (.cancelled, ⟨0, 2, 2, 1, fun _ => [0]⟩, []) :=
  ⟨fun _ _ => rfl, fun _ _ => rfl, rfl⟩


/-- Claim C7 counterexample: with msg_size_words = 2 ^ 29 the uint32
multiplication msg_size_words * 8 wraps to 0, and create requests a total
size of 40 bytes, not 32 + max_len * (8 + msg_size_words * 8). -/
theorem create_size_wrap_cex :
    createMsgSize 536870912 = 0 ∧ (0 : Nat) ≠ 536870912 * 8 ∧
    createTotalSize 536870912 1 = 40 ∧
    (40 : Nat) ≠ 32 + 1 * (8 + 536870912 * 8) := by
  refine ⟨rfl, by omega, rfl, by omega⟩

/-- Claim C7 (amended: the conversion and the total size are computed in
uint32 arithmetic, so the identities hold whenever the intermediate values
fit in 32 bits): create converts msg_size_words to msg_size_bytes =
msg_size_words * 8 and requests a total segment size of
32 + max_len * (8 + msg_size_bytes); in particular create(msg_size_words =
4, max_len = 16) requests total size 672 and its getters report
msg_size = 32, max_len = 16, start_idx = 0, queue_len = 0. -/
theorem create_size_spec :
    (∀ w l : Nat, w * 8 < U32 → 32 + (8 + w * 8) * l < U32 →
      createMsgSize w = w * 8 ∧ createTotalSize w l = 32 + l * (8 + w * 8)) ∧
    createMsgSize 4 = 32 ∧ createTotalSize 4 16 = 672 ∧
    (∀ old : QState, (createState 4 16 old).msgSize = 32 ∧
      (createState 4 16 old).maxLen = 16 ∧ (createState 4 16 old).startIdx = 0 ∧
      (createState 4 16 old).queueLen = 0) := by
  refine ⟨?_, rfl, rfl, fun old => ⟨rfl, rfl, rfl, rfl⟩⟩
  intro w l hw hT
  have hU : U32 = 4294967296 := rfl
  have hw8 : createMsgSize w = w * 8 := by
    unfold createMsgSize
    rw [hU] at hw ⊢
    exact Nat.mod_eq_of_lt hw
  refine ⟨hw8, ?_⟩
  unfold createTotalSize totalShmSize
  rw [hw8]
  rcases Nat.eq_zero_or_pos l with hl | hl
  · subst hl
    simp [magicSize, paramsSize, headerSize, msgLockSize, U32]
  · rw [hU] at hT
    have h1 : w * 8 + 8 ≤ (8 + w * 8) * l := by
      calc w * 8 + 8 = (8 + w * 8) * 1 := by ring
      _ ≤ (8 + w * 8) * l := Nat.mul_le_mul_left _ hl
    have hcomm : (w * 8 + 8) * l = (8 + w * 8) * l := by ring
    have h2 : (w * 8 + msgLockSize) % U32 = w * 8 + 8 := by
      rw [hU]
      have hmls : msgLockSize = 8 := rfl
      rw [hmls]
      exact Nat.mod_eq_of_lt (by omega)
    rw [h2, hcomm]
    have h3 : (8 + w * 8) * l % U32 = (8 + w * 8) * l := by
      rw [hU]
      exact Nat.mod_eq_of_lt (by omega)
    rw [h3]
    have h4 : magicSize + paramsSize + headerSize = 32 := rfl
    rw [h4, hU]
    rw [Nat.mod_eq_of_lt (by omega)]
    ring

/-- Claim C7 witness: the no-overflow identity at msg_size_words = 4,
max_len = 16. -/
theorem create_size_spec_witness :
    ((4 : Nat) * 8 < U32 ∧ 32 + (8 + 4 * 8) * 16 < U32) ∧
    createMsgSize 4 = 4 * 8 ∧ createTotalSize 4 16 = 32 + 16 * (8 + 4 * 8) :=
  ⟨⟨by decide, by decide⟩, create_size_spec.1 4 16 (by decide) (by decide)⟩

/-- Claim C8 counterexample: reusing an existing segment whose header says
max_len = 99 and msg_size = 64, create(key, 4, 16) reports max_len = 16 and
msg_size = 32 — the REQUESTED parameters, not the pre-existing ones,
because Create rewrites the header unconditionally (queue.go lines 59-64). -/
theorem create_reuse_cex :
    (createState 4 16 ⟨0, 0, 99, 64, fun _ => []⟩).maxLen = 16 ∧ (16 : Nat) ≠ 99 ∧
    (createState 4 16 ⟨0, 0, 99, 64, fun _ => []⟩).msgSize = 32 ∧ (32 : Nat) ≠ 64 :=
  ⟨rfl, by omega, rfl, by omega⟩

/-- Claim C8 (amended: the resulting handle reports the REQUESTED max_len
and msg_size — the header of the reused segment is reinitialized
unconditionally — while start_idx and queue_len are zero and the slot
payload bytes of the reused segment are untouched). -/
theorem create_reuse_spec (w l : Nat) (old : QState) (hl : l < U32) :
    (createState w l old).maxLen = l ∧
    (createState w l old).msgSize = w * 8 % U32 ∧
    (createState w l old).startIdx = 0 ∧
    (createState w l old).queueLen = 0 ∧
    (createState w l old).slots = old.slots := by
  refine ⟨?_, rfl, rfl, rfl, rfl⟩
  show l % U32 = l
  exact Nat.mod_eq_of_lt hl

/-- Claim C8 witness: create(2, 3) over a pre-existing header (99, 64). -/
theorem create_reuse_spec_witness :
    (3 : Nat) < U32 ∧
    ((createState 2 3 ⟨0, 0, 99, 64, fun _ => []⟩).maxLen = 3 ∧
      (createState 2 3 ⟨0, 0, 99, 64, fun _ => []⟩).msgSize = 2 * 8 % U32 ∧
      (createState 2 3 ⟨0, 0, 99, 64, fun _ => []⟩).startIdx = 0 ∧
      (createState 2 3 ⟨0, 0, 99, 64, fun _ => []⟩).queueLen = 0 ∧
      (createState 2 3 ⟨0, 0, 99, 64, fun _ => []⟩).slots =
        (⟨0, 0, 99, 64, fun _ => []⟩ : QState).slots) :=
  ⟨by decide, create_reuse_spec 2 3 ⟨0, 0, 99, 64, fun _ => []⟩ (by decide)⟩

/-- Claim C9: create performs no validation of max_len, so max_len = 0 is
accepted; on the resulting queue enqueue_try and dequeue_try return false
without faulting, but enqueue_shift divides by zero in its modulo; and for
every state with max_len at least 1 no enqueue or dequeue path can fault
with a division by zero. -/
theorem maxLen_zero_divzero_spec :
    (∀ (w : Nat) (old : QState), (createState w 0 old).maxLen = 0 ∧
      (createState w 0 old).startIdx = 0 ∧ (createState w 0 old).queueLen = 0) ∧
    (∀ (w : Nat) (old : QState) (msg : List Nat),
      enqueueTry msg (createState w 0 old) =
        .ok (false, createState w 0 old, [Ev.lockHeader, Ev.unlockHeader])) ∧
    (∀ (w : Nat) (old : QState) (tlen : Nat),
      dequeueTry tlen (createState w 0 old) =
        .ok (false, [], createState w 0 old, [Ev.lockHeader, Ev.unlockHeader])) ∧
    (∀ (w : Nat) (old : QState) (msg : List Nat),
      enqueueShift msg (createState w 0 old) = .error .divZero) ∧
    (∀ s : QState, 1 ≤ s.maxLen →
      (∀ msg, enqueueShift msg s ≠ .error .divZero) ∧
      (∀ msg, enqueueTry msg s ≠ .error .divZero) ∧
      (∀ tlen, dequeueTry tlen s ≠ .error .divZero) ∧
      (∀ c msg, enqueueBlock c msg s ≠ .error .divZero) ∧
      (∀ c tlen, dequeueBlock c tlen s ≠ .error .divZero)) := by
  refine ⟨fun w old => ⟨rfl, rfl, rfl⟩, fun w old msg => rfl, fun w old tlen => rfl,
    fun w old msg => rfl, ?_⟩
  intro s hM
  refine ⟨?_, ?_, ?_, ?_, ?_⟩
  · intro msg h
    unfold enqueueShift at h
    split at h
    · omega
    · split at h
      · split at h <;> exact absurd h (by simp)
      · exact absurd h (by simp)
  · intro msg h
    unfold enqueueTry at h
    split at h
    · exact absurd h (by simp)
    · split at h <;> exact absurd h (by simp)
  · intro tlen h
    unfold dequeueTry at h
    split at h
    · exact absurd h (by simp)
    · split at h
      · omega
      · split at h <;> exact absurd h (by simp)
  · intro c msg h
    unfold enqueueBlock at h
    split at h
    · exact absurd h (by simp)
    · split at h
      · split at h <;> exact absurd h (by simp)
      · exact absurd h (by simp)
  · intro c tlen h
    unfold dequeueBlock at h
    split at h
    · exact absurd h (by simp)
    · split at h
      · exact absurd h (by simp)
      · split at h
        · omega
        · split at h <;> exact absurd h (by simp)

/-- Claim C9 witness: the no-division-by-zero facts at a concrete one-slot
queue. -/
theorem maxLen_zero_divzero_spec_witness :
    1 ≤ (⟨0, 0, 1, 1, fun _ => [0]⟩ : QState).maxLen ∧
    (enqueueShift [5] ⟨0, 0, 1, 1, fun _ => [0]⟩ ≠ .error .divZero ∧
      enqueueTry [5] ⟨0, 0, 1, 1, fun _ => [0]⟩ ≠ .error .divZero ∧
      dequeueTry 1 ⟨0, 0, 1, 1, fun _ => [0]⟩ ≠ .error .divZero) :=
  ⟨by decide,
    ⟨(maxLen_zero_divzero_spec.2.2.2.2 ⟨0, 0, 1, 1, fun _ => [0]⟩ (by decide)).1 [5],
     (maxLen_zero_divzero_spec.2.2.2.2 ⟨0, 0, 1, 1, fun _ => [0]⟩ (by decide)).2.1 [5],
     (maxLen_zero_divzero_spec.2.2.2.2 ⟨0, 0, 1, 1, fun _ => [0]⟩ (by decide)).2.2.1 1⟩⟩


theorem getU32_putU32 (bo : ByteOrder) (mem : Mem) (off v : Nat) (hv : v < U32) :
    getU32 bo (putU32 bo mem off v) off = v := by
  have hU : U32 = 4294967296 := rfl
  rw [hU] at hv
  cases bo <;>
    (simp only [getU32, putU32, leByte0, leByte1, leByte2, leByte3, if_true]
     split_ifs <;> omega)

theorem putU32_frame (bo : ByteOrder) (mem : Mem) (off v i : Nat)
    (hi : i < off ∨ off + 4 ≤ i) : putU32 bo mem off v i = mem i := by
  cases bo <;>
    (simp only [putU32]
     rw [if_neg (by omega), if_neg (by omega), if_neg (by omega), if_neg (by omega)])

/-- Claim C10: each header setter followed by the matching getter returns
the stored 32-bit value, and each setter changes only its own 4-byte field:
every byte outside it — the magic bytes 0..7, the other three header
fields, the header lock word at 16..23, and every slot lock and payload
byte from offset 32 on — is unchanged.  This holds for both byte orders the
probe can select. -/
theorem header_setter_spec (bo : ByteOrder) (mem : Mem) (v : Nat) (hv : v < U32) :
    (getMaxLen bo (setMaxLen bo mem v) = v ∧
      ∀ i, i < startMaxLen ∨ startMaxLen + 4 ≤ i → setMaxLen bo mem v i = mem i) ∧
    (getMsgSize bo (setMsgSize bo mem v) = v ∧
      ∀ i, i < startMsgSize ∨ startMsgSize + 4 ≤ i → setMsgSize bo mem v i = mem i) ∧
    (getStartIdx bo (setStartIdx bo mem v) = v ∧
      ∀ i, i < startStartIdx ∨ startStartIdx + 4 ≤ i → setStartIdx bo mem v i = mem i) ∧
    (getQueueLen bo (setQueueLen bo mem v) = v ∧
      ∀ i, i < startQueueLen ∨ startQueueLen + 4 ≤ i → setQueueLen bo mem v i = mem i) :=
  ⟨⟨getU32_putU32 bo mem startMaxLen v hv, fun i hi => putU32_frame bo mem startMaxLen v i hi⟩,
   ⟨getU32_putU32 bo mem startMsgSize v hv, fun i hi => putU32_frame bo mem startMsgSize v i hi⟩,
   ⟨getU32_putU32 bo mem startStartIdx v hv, fun i hi => putU32_frame bo mem startStartIdx v i hi⟩,
   ⟨getU32_putU32 bo mem startQueueLen v hv, fun i hi => putU32_frame bo mem startQueueLen v i hi⟩⟩

/-- Claim C10 witness: storing 305419896 = 0x12345678 in max_len over a
zeroed little-endian segment: the getter reads it back and byte 0 (magic
region) is untouched. -/
theorem header_setter_spec_witness :
    (305419896 : Nat) < U32 ∧
    getMaxLen ByteOrder.little (setMaxLen ByteOrder.little (fun _ => 0) 305419896) =
      305419896 ∧
    setMaxLen ByteOrder.little (fun _ => 0) 305419896 0 = (fun _ => (0 : Nat)) 0 :=
  ⟨by decide,
   (header_setter_spec ByteOrder.little (fun _ => 0) 305419896 (by decide)).1.1,
   (header_setter_spec ByteOrder.little (fun _ => 0) 305419896 (by decide)).1.2 0
     (Or.inl (by decide))⟩

end Shqueue
